import Mathlib

/-!
# Dear Evelyn, the Game: the sliding-tile puzzle logic of `script.js`

A shallow embedding of the board logic of `script.js` (`getNeighbors`, `shuffleBoard`,
`handleTileClick`, `checkWin`, `initGame`) together with the properties of the board that
the design document states.

Conventions of the embedding.

* JavaScript numbers that the logic manipulates are integers (cell indices, tile values, and
  the `-1` of `indexOf` and of `previousIdx`), so they are `Int`.
* The array `tiles` is a `List Int`.  A read outside the array gives `undefined` in
  JavaScript; here it is `none`.  An operation that would store `undefined` in the array or
  write outside of it leaves the embedding and yields `none`; every theorem about a result
  therefore also proves that the result is `some _`.
* `gridSize` is the constant `3` in the script.  It is a parameter here so that the
  statements that speak about every grid size can be stated; `totalTiles` is derived from it
  exactly as in the script.
* `Math.floor(Math.random() * candidates.length)` is an index in `[0, candidates.length)`.
  The random source is a function `rand : Nat → Nat` giving the draw of each loop iteration,
  and the index taken is `rand i % candidates.length`: every index below the length can be
  produced, and nothing else.
* The DOM is abstracted to one counter, the number of calls of `updateTilePositions`.
-/

namespace DearEvelyn

/-! ## Array primitives -/

/-- The read `arr[i]` of a JavaScript array of integers; `none` stands for `undefined`. -/
def getAt (arr : List Int) (i : Int) : Option Int :=
  if 0 ≤ i then arr[i.toNat]? else none

/-- The method `arr.indexOf(v)`: the first index holding `v`, or `-1`. -/
def indexOf (arr : List Int) (v : Int) : Int :=
  if List.indexOf v arr < arr.length then (List.indexOf v arr : Int) else -1

/-- The method `arr.includes(v)`. -/
def includes (arr : List Int) (v : Int) : Bool :=
  arr.contains v

/-- The method `arr.every((val, index) => p val index)`, with the index of the first
element of the list passed explicitly. -/
def everyFrom (p : Int → Int → Bool) : Int → List Int → Bool
  | _, [] => true
  | index, val :: rest => p val index && everyFrom p (index + 1) rest

/-- The destructuring swap `[arr[i], arr[j]] = [arr[j], arr[i]]`: the right-hand side is read
first, then `arr[i]` and `arr[j]` are assigned in this order. -/
def swapCells (arr : List Int) (i j : Int) : Option (List Int) :=
  match getAt arr j, getAt arr i with
  | some x, some y => some ((arr.set i.toNat x).set j.toNat y)
  | _, _ => none

/-! ## Configuration -/

/-- The constant `totalTiles = gridSize * gridSize`. -/
def totalTiles (gridSize : Int) : Int :=
  gridSize * gridSize

/-- The array `Array.from({ length: totalTiles }, (_, i) => i)` of `initGame`. -/
def solvedState (gridSize : Int) : List Int :=
  (List.range (totalTiles gridSize).toNat).map (fun (i : Nat) => (i : Int))

/-- The local constant `shuffleMoves` of `shuffleBoard`. -/
def shuffleMoves : Nat := 150

/-! ## `getNeighbors` -/

/-- The function `getNeighbors(index)`: `Math.floor(index / gridSize)` is floor division and
`%` is the truncating remainder of JavaScript. -/
def getNeighbors (gridSize index : Int) : List Int :=
  let row := Int.fdiv index gridSize
  let col := Int.tmod index gridSize
  let neighbors : List Int := []
  let neighbors := if row > 0 then neighbors ++ [index - gridSize] else neighbors
  let neighbors := if row < gridSize - 1 then neighbors ++ [index + gridSize] else neighbors
  let neighbors := if col > 0 then neighbors ++ [index - 1] else neighbors
  let neighbors := if col < gridSize - 1 then neighbors ++ [index + 1] else neighbors
  neighbors

/-! ## `shuffleBoard` -/

/-- The variables of the loop of `shuffleBoard`. -/
structure ShuffleState where
  boardState : List Int
  emptyIdx : Int
  previousIdx : Int
  deriving DecidableEq, Repr

/-- The list `validNeighbors` computed at the top of a loop iteration. -/
def validNeighbors (gridSize : Int) (s : ShuffleState) : List Int :=
  (getNeighbors gridSize s.emptyIdx).filter (fun idx => idx != s.previousIdx)

/-- The list `candidates` of a loop iteration: `validNeighbors` unless it is empty. -/
def candidates (gridSize : Int) (s : ShuffleState) : List Int :=
  if (validNeighbors gridSize s).length > 0 then validNeighbors gridSize s
  else getNeighbors gridSize s.emptyIdx

/-- One iteration of the loop of `shuffleBoard`, with `draw` the random draw. -/
def shuffleIter (gridSize : Int) (draw : Nat) (s : ShuffleState) : Option ShuffleState :=
  match (candidates gridSize s)[draw % (candidates gridSize s).length]? with
  | none => none
  | some randomNeighbor =>
    match swapCells s.boardState s.emptyIdx randomNeighbor with
    | none => none
    | some b => some ⟨b, randomNeighbor, s.emptyIdx⟩

/-- The variables of `shuffleBoard` when the loop is entered. -/
def shuffleStart (gridSize : Int) (boardState : List Int) : ShuffleState :=
  ⟨boardState, indexOf boardState (totalTiles gridSize - 1), -1⟩

/-- The variables of `shuffleBoard` after `k` iterations of the loop; iteration `i` uses the
draw `rand i`. -/
def shuffleAfter (gridSize : Int) (rand : Nat → Nat) (boardState : List Int) :
    Nat → Option ShuffleState
  | 0 => some (shuffleStart gridSize boardState)
  | k + 1 => (shuffleAfter gridSize rand boardState k).bind (shuffleIter gridSize (rand k))

/-- The function `shuffleBoard(boardState)`; the result is the array after the loop. -/
def shuffleBoard (gridSize : Int) (rand : Nat → Nat) (boardState : List Int) :
    Option (List Int) :=
  (shuffleAfter gridSize rand boardState shuffleMoves).map (fun s => s.boardState)

/-! ## Game state, `checkWin`, `handleTileClick`, `initGame` -/

/-- The module-level state: `tiles`, `isSolved`, and the number of calls of
`updateTilePositions` so far (the abstraction of the DOM). -/
structure Game where
  tiles : List Int
  isSolved : Bool
  positionUpdates : Nat
  deriving DecidableEq, Repr

/-- The state when the script is loaded: `tiles = []`, `isSolved = false`. -/
def loadState : Game :=
  ⟨[], false, 0⟩

/-- The function `updateTilePositions()`: it only writes to the DOM. -/
def updateTilePositions (s : Game) : Game :=
  { s with positionUpdates := s.positionUpdates + 1 }

/-- The function `handleResize()`: `updateDimensions()` reads CSS, then the tiles are placed
again. -/
def handleResize (s : Game) : Game :=
  updateTilePositions s

/-- The value `isWin` computed in `checkWin`. -/
def isWin (tiles : List Int) : Bool :=
  everyFrom (fun val index => val == index) 0 tiles

/-- The function `checkWin()`; the timers it starts only touch the DOM. -/
def checkWin (s : Game) : Game :=
  if isWin s.tiles then { s with isSolved := true } else s

/-- The function `handleTileClick(clickedTileValue)`. -/
def handleTileClick (gridSize : Int) (s : Game) (clickedTileValue : Int) : Option Game :=
  if s.isSolved then some s
  else
    let currentGridIndex := indexOf s.tiles clickedTileValue
    let emptyGridIndex := indexOf s.tiles (totalTiles gridSize - 1)
    let neighbors := getNeighbors gridSize emptyGridIndex
    if includes neighbors currentGridIndex then
      match swapCells s.tiles emptyGridIndex currentGridIndex with
      | none => none
      | some t => some (checkWin (updateTilePositions { s with tiles := t }))
    else some s

/-- The function `initGame()`: the solved array is built, shuffled in place, and the tiles
are placed. -/
def initGame (gridSize : Int) (rand : Nat → Nat) (s : Game) : Option Game :=
  match shuffleBoard gridSize rand (solvedState gridSize) with
  | none => none
  | some t => some (updateTilePositions { s with tiles := t })

/-! ## Grid geometry as the design document words it -/

/-- The row of a cell in the row-major grid: `i div gridSize`. -/
def cellRow (gridSize i : Int) : Int := i / gridSize

/-- The column of a cell in the row-major grid: `i mod gridSize`. -/
def cellCol (gridSize i : Int) : Int := i % gridSize

/-- Cell `j` is one step up, down, left or right of cell `i`: same column and the rows
differ by one, or same row and the columns differ by one. -/
def Adjacent (gridSize i j : Int) : Prop :=
  (cellCol gridSize j = cellCol gridSize i ∧
      (cellRow gridSize j = cellRow gridSize i + 1 ∨ cellRow gridSize j + 1 = cellRow gridSize i)) ∨
  (cellRow gridSize j = cellRow gridSize i ∧
      (cellCol gridSize j = cellCol gridSize i + 1 ∨ cellCol gridSize j + 1 = cellCol gridSize i))

/-! ## Boards -/

/-- The array is a permutation of `[0, 1, …, totalTiles - 1]`. -/
def IsBoard (gridSize : Int) (t : List Int) : Prop :=
  List.Perm t (solvedState gridSize)

instance (gridSize : Int) (t : List Int) : Decidable (IsBoard gridSize t) :=
  inferInstanceAs (Decidable (List.Perm t (solvedState gridSize)))

/-- The loop invariant of `shuffleBoard`: the array is a board and `emptyIdx` is the cell of
the empty tile. -/
structure ShuffleInv (gridSize : Int) (s : ShuffleState) : Prop where
  board : IsBoard gridSize s.boardState
  empty : s.emptyIdx = indexOf s.boardState (totalTiles gridSize - 1)

/-! ## Legal moves and the trace of the shuffle -/

/-- A legal move: the empty tile is swapped with the tile in cell `c`, one of the cells of
`getNeighbors` of the cell of the empty tile. -/
def legalMove (gridSize : Int) (t : List Int) (c : Int) : Option (List Int) :=
  if includes (getNeighbors gridSize (indexOf t (totalTiles gridSize - 1))) c then
    swapCells t (indexOf t (totalTiles gridSize - 1)) c
  else none

/-- Board `b` is reachable from board `a` by legal moves. -/
inductive Reachable (gridSize : Int) (a : List Int) : List Int → Prop
  | start : Reachable gridSize a a
  | move {b b' : List Int} (c : Int) : Reachable gridSize a b →
      legalMove gridSize b c = some b' → Reachable gridSize a b'

/-- The pairs of cells `(emptyIdx, randomNeighbor)` swapped by the first `k` iterations of
the loop of `shuffleBoard`, in the order of the iterations. -/
def shuffleSwaps (gridSize : Int) (rand : Nat → Nat) (boardState : List Int) :
    Nat → List (Int × Int)
  | 0 => []
  | k + 1 =>
    shuffleSwaps gridSize rand boardState k ++
      (match shuffleAfter gridSize rand boardState k,
          shuffleAfter gridSize rand boardState (k + 1) with
        | some s, some s' => [(s.emptyIdx, s'.emptyIdx)]
        | _, _ => [])

/-- The swaps of a list applied to an array one after the other. -/
def applySwaps : List (Int × Int) → List Int → Option (List Int)
  | [], t => some t
  | (i, j) :: rest, t => (swapCells t i j).bind (applySwaps rest)

/-! ## Events -/

/-- The functions of the script that run on the game state. -/
inductive Op where
  | initGame (rand : Nat → Nat)
  | handleTileClick (clickedTileValue : Int)
  | handleResize
  | updateTilePositions
  | checkWin

/-- One operation run on the game state. -/
def runOp (gridSize : Int) : Op → Game → Option Game
  | Op.initGame rand, s => initGame gridSize rand s
  | Op.handleTileClick v, s => handleTileClick gridSize s v
  | Op.handleResize, s => some (handleResize s)
  | Op.updateTilePositions, s => some (updateTilePositions s)
  | Op.checkWin, s => some (checkWin s)

/-- A sequence of operations run one after the other. -/
def runOps (gridSize : Int) : List Op → Game → Option Game
  | [], s => some s
  | op :: rest, s => (runOp gridSize op s).bind (runOps gridSize rest)

/-- A sequence of draws that walks the empty cell around the six cells of the two lower rows:
`8 → 5 → 4 → 3 → 6 → 7 → 8`, again and again. -/
def loopDraws (i : Nat) : Nat :=
  [0, 1, 2, 1, 0, 1].getD (i % 6) 0

/-! ## Cells and coordinates -/

theorem coords_of_cell {g i : Int} (hg : 0 < g) (h0 : 0 ≤ i) (hN : i < g * g) :
    ∃ r c : Int, i = g * r + c ∧ 0 ≤ r ∧ r < g ∧ 0 ≤ c ∧ c < g ∧
      Int.fdiv i g = r ∧ Int.tmod i g = c ∧ i / g = r ∧ i % g = c := by
  refine ⟨i / g, i % g, ?_, ?_, ?_, ?_, ?_, ?_, ?_, rfl, rfl⟩
  · exact (Int.ediv_add_emod i g).symm
  · exact Int.ediv_nonneg h0 hg.le
  · exact Int.ediv_lt_of_lt_mul hg hN
  · exact Int.emod_nonneg i (ne_of_gt hg)
  · exact Int.emod_lt_of_pos i hg
  · exact Int.fdiv_eq_ediv i hg.le
  · exact Int.tmod_eq_emod h0 hg.le

theorem coords_unique (g r c r' c' : Int) (hc : 0 ≤ c) (hcg : c < g) (hc' : 0 ≤ c')
    (hcg' : c' < g) (h : g * r + c = g * r' + c') : r = r' ∧ c = c' := by
  have hg : 0 < g := by omega
  have h1 : (g * r + c) / g = r ∧ (g * r + c) % g = c :=
    (Int.ediv_emod_unique hg).2 ⟨by ring, hc, hcg⟩
  have h2 : (g * r' + c') / g = r' ∧ (g * r' + c') % g = c' :=
    (Int.ediv_emod_unique hg).2 ⟨by ring, hc', hcg'⟩
  rw [h] at h1
  exact ⟨h1.1.symm.trans h2.1, h1.2.symm.trans h2.2⟩

theorem mem_getNeighbors (g i j : Int) :
    j ∈ getNeighbors g i ↔
      (Int.fdiv i g > 0 ∧ j = i - g) ∨ (Int.fdiv i g < g - 1 ∧ j = i + g) ∨
      (Int.tmod i g > 0 ∧ j = i - 1) ∨ (Int.tmod i g < g - 1 ∧ j = i + 1) := by
  unfold getNeighbors
  simp only []
  split_ifs <;> simp_all <;> omega

/-- Every neighbour of a cell of the grid is a cell of the grid. -/
theorem getNeighbors_range {g i j : Int} (hg : 2 ≤ g) (h0 : 0 ≤ i) (hN : i < g * g)
    (hj : j ∈ getNeighbors g i) : 0 ≤ j ∧ j < g * g ∧ j ≠ i := by
  obtain ⟨r, c, hi, hr0, hrg, hc0, hcg, hf, ht, -, -⟩ := coords_of_cell (by omega) h0 hN
  rw [mem_getNeighbors, hf, ht] at hj
  have e1 : g * (r - 1) = g * r - g := by ring
  have e2 : g * (g - 1) = g * g - g := by ring
  have p1 : 0 ≤ g * (r - 1) ∨ r = 0 := by
    rcases eq_or_lt_of_le hr0 with h | h
    · exact Or.inr h.symm
    · exact Or.inl (mul_nonneg (by omega) (by omega))
  have p0 : 0 ≤ g * r := mul_nonneg (by omega) hr0
  have p2 : g * r ≤ g * (g - 1) := mul_le_mul_of_nonneg_left (by omega) (by omega)
  have p3 : r < g - 1 → g * (r + 1) ≤ g * (g - 1) := fun h =>
    mul_le_mul_of_nonneg_left (by omega) (by omega)
  have e3 : g * (r + 1) = g * r + g := by ring
  rcases hj with ⟨h, rfl⟩ | ⟨h, rfl⟩ | ⟨h, rfl⟩ | ⟨h, rfl⟩
  · omega
  · have := p3 h; omega
  · omega
  · omega

theorem adjacent_iff_mem_getNeighbors {g i j : Int} (hg : 2 ≤ g) (h0 : 0 ≤ i)
    (hN : i < g * g) :
    j ∈ getNeighbors g i ↔ (0 ≤ j ∧ j < g * g ∧ Adjacent g i j) := by
  obtain ⟨r, c, hi, hr0, hrg, hc0, hcg, hf, ht, hd, hm⟩ := coords_of_cell (by omega) h0 hN
  constructor
  · intro hj
    obtain ⟨hj0, hjN, -⟩ := getNeighbors_range hg h0 hN hj
    refine ⟨hj0, hjN, ?_⟩
    obtain ⟨r', c', hj', hr0', hrg', hc0', hcg', -, -, hd', hm'⟩ :=
      coords_of_cell (by omega) hj0 hjN
    rw [mem_getNeighbors, hf, ht] at hj
    unfold Adjacent cellRow cellCol
    rw [hd, hm, hd', hm']
    have e1 : g * (r - 1) = g * r - g := by ring
    have e3 : g * (r + 1) = g * r + g := by ring
    rcases hj with ⟨h, e⟩ | ⟨h, e⟩ | ⟨h, e⟩ | ⟨h, e⟩
    · have := coords_unique g r' c' (r - 1) c hc0' hcg' hc0 hcg (by omega)
      omega
    · have := coords_unique g r' c' (r + 1) c hc0' hcg' hc0 hcg (by omega)
      omega
    · have := coords_unique g r' c' r (c - 1) hc0' hcg' (by omega) (by omega)
        (by omega)
      omega
    · have := coords_unique g r' c' r (c + 1) hc0' hcg' (by omega) (by omega)
        (by omega)
      omega
  · rintro ⟨hj0, hjN, hadj⟩
    obtain ⟨r', c', hj', hr0', hrg', hc0', hcg', -, -, hd', hm'⟩ :=
      coords_of_cell (by omega) hj0 hjN
    rw [mem_getNeighbors, hf, ht]
    unfold Adjacent cellRow cellCol at hadj
    rw [hd, hm, hd', hm'] at hadj
    have e1 : g * (r' + 1) = g * r' + g := by ring
    have e3 : g * (r + 1) = g * r + g := by ring
    rcases hadj with ⟨hc, hr | hr⟩ | ⟨hr, hc | hc⟩
    · subst hc; subst hr; omega
    · subst hc; rw [← hr] at hi hr0 hrg; omega
    · subst hr; subst hc; omega
    · subst hr; rw [← hc] at hi hc0 hcg; omega

theorem getNeighbors_nodup_length {g i : Int} (hg : 2 ≤ g) (h0 : 0 ≤ i)
    (hN : i < g * g) :
    (getNeighbors g i).Nodup ∧ 2 ≤ (getNeighbors g i).length ∧
      (getNeighbors g i).length ≤ 4 := by
  obtain ⟨r, c, hi, hr0, hrg, hc0, hcg, hf, ht, -, -⟩ := coords_of_cell (by omega) h0 hN
  unfold getNeighbors
  simp only [hf, ht]
  split_ifs <;> simp <;> omega

/-! ## Array primitives -/

theorem getAt_natCast (t : List Int) (n : Nat) : getAt t (n : Int) = t[n]? := by
  simp [getAt]

theorem getAt_eq_some {t : List Int} {i v : Int} (h : getAt t i = some v) :
    0 ≤ i ∧ i < t.length := by
  unfold getAt at h
  split_ifs at h with h0
  · have := (List.getElem?_eq_some.1 h).1
    omega

theorem swap_perm (l : List Int) (i j : Nat) (hi : i < l.length) (hj : j < l.length) :
    List.Perm ((l.set i l[j]).set j l[i]) l := by
  rw [List.perm_iff_count]
  intro b
  rw [List.count_set _ _ _ _ (by simpa using hj), List.count_set _ _ _ _ hi]
  have hget : ∀ h : j < (l.set i l[j]).length, (l.set i l[j])[j] = l[j] := by
    intro h
    rw [List.getElem_set]
    split_ifs <;> rfl
  rw [hget]
  have hpos : (l[i] == b) = true → 1 ≤ l.count b := by
    intro h
    have hb : l[i] = b := by simpa using h
    exact List.one_le_count_iff.2 (hb ▸ List.getElem_mem hi)
  by_cases h1 : (l[i] == b) = true <;> by_cases h2 : (l[j] == b) = true
  · have := hpos h1
    simp only [h1, h2, if_true]
    omega
  · have := hpos h1
    simp only [h1, h2, if_true]
    simp
    omega
  · simp only [h1, h2, if_true]
    simp
  · simp only [h1, h2]
    simp

theorem swapCells_spec {t : List Int} {i j : Int} (hi0 : 0 ≤ i) (hi : i < t.length)
    (hj0 : 0 ≤ j) (hj : j < t.length) (hij : i ≠ j) :
    ∃ t', swapCells t i j = some t' ∧ t'.length = t.length ∧ List.Perm t' t ∧
      getAt t' i = getAt t j ∧ getAt t' j = getAt t i ∧
      (∀ k, k ≠ i → k ≠ j → getAt t' k = getAt t k) ∧ swapCells t' i j = some t := by
  obtain ⟨a, rfl⟩ := Int.eq_ofNat_of_zero_le hi0
  obtain ⟨b, rfl⟩ := Int.eq_ofNat_of_zero_le hj0
  have ha : a < t.length := by exact_mod_cast hi
  have hb : b < t.length := by exact_mod_cast hj
  have hab : a ≠ b := fun h => hij (by rw [h])
  refine ⟨(t.set a t[b]).set b t[a], ?_, by simp, swap_perm t a b ha hb, ?_, ?_, ?_, ?_⟩
  · simp [swapCells, getAt_natCast, List.getElem?_eq_getElem ha, List.getElem?_eq_getElem hb]
  · simp [getAt_natCast, List.getElem?_set, ha, hb, hab, Ne.symm hab]
  · simp [getAt_natCast, List.getElem?_set, ha, hb, hab, Ne.symm hab]
  · intro k hka hkb
    by_cases hk : 0 ≤ k
    · obtain ⟨c, rfl⟩ := Int.eq_ofNat_of_zero_le hk
      have hca : a ≠ c := fun h => hka (by rw [h])
      have hcb : b ≠ c := fun h => hkb (by rw [h])
      simp [getAt_natCast, List.getElem?_set, hca, hcb]
    · simp [getAt, hk]
  · simp only [swapCells, getAt_natCast, Int.toNat_ofNat]
    simp [List.getElem?_set, ha, hb, hab, Ne.symm hab]
    apply List.ext_getElem?
    intro n
    simp only [List.getElem?_set]
    simp
    by_cases h1 : b = n <;> by_cases h2 : a = n <;> simp [h1, h2, ha, hb]
    · omega
    · subst h1; simp [hb]
    · subst h2; simp [ha]

theorem indexOf_of_mem {t : List Int} {v : Int} (h : v ∈ t) :
    ∃ n : Nat, indexOf t v = n ∧ n < t.length ∧ t[n]? = some v := by
  have hlt : List.indexOf v t < t.length := List.indexOf_lt_length.2 h
  refine ⟨List.indexOf v t, by simp [indexOf, hlt], hlt, ?_⟩
  rw [List.getElem?_eq_getElem hlt, List.getElem_indexOf hlt]

theorem indexOf_of_not_mem {t : List Int} {v : Int} (h : v ∉ t) : indexOf t v = -1 := by
  have : ¬ List.indexOf v t < t.length := fun hlt => h (List.indexOf_lt_length.1 hlt)
  simp [indexOf, this]

theorem indexOf_of_getElem? {t : List Int} {v : Int} {n : Nat} (hnd : t.Nodup)
    (h : t[n]? = some v) : indexOf t v = n := by
  obtain ⟨hn, hv⟩ := List.getElem?_eq_some.1 h
  have hidx : List.indexOf v t = n := by
    rw [← hv]
    exact List.indexOf_getElem hnd n hn
  simp [indexOf, hidx, hn]

/-! ## Boards -/

theorem mem_solvedState {g v : Int} : v ∈ solvedState g ↔ 0 ≤ v ∧ v < totalTiles g := by
  unfold solvedState
  simp only [List.mem_map, List.mem_range]
  constructor
  · rintro ⟨a, ha, rfl⟩
    omega
  · rintro ⟨h0, h1⟩
    exact ⟨v.toNat, by omega, by omega⟩

theorem solvedState_nodup (g : Int) : (solvedState g).Nodup :=
  List.Nodup.map Nat.cast_injective (List.nodup_range _)

theorem solvedState_length (g : Int) : (solvedState g).length = (totalTiles g).toNat := by
  simp [solvedState]

theorem totalTiles_pos {g : Int} (hg : 2 ≤ g) : 4 ≤ totalTiles g := by
  unfold totalTiles
  nlinarith

theorem IsBoard.length {g : Int} {t : List Int} (h : IsBoard g t) (hg : 2 ≤ g) :
    (t.length : Int) = totalTiles g := by
  have := List.Perm.length_eq h
  rw [solvedState_length] at this
  have := totalTiles_pos hg
  omega

theorem IsBoard.nodup {g : Int} {t : List Int} (h : IsBoard g t) : t.Nodup :=
  (List.Perm.nodup_iff h).2 (solvedState_nodup g)

theorem IsBoard.mem_iff {g : Int} {t : List Int} (h : IsBoard g t) {v : Int} :
    v ∈ t ↔ 0 ≤ v ∧ v < totalTiles g :=
  (List.Perm.mem_iff h).trans mem_solvedState

/-- On a board the empty tile has a cell, and `indexOf` finds it. -/
theorem IsBoard.emptyCell {g : Int} {t : List Int} (h : IsBoard g t) (hg : 2 ≤ g) :
    0 ≤ indexOf t (totalTiles g - 1) ∧ indexOf t (totalTiles g - 1) < totalTiles g ∧
      getAt t (indexOf t (totalTiles g - 1)) = some (totalTiles g - 1) := by
  have hN := totalTiles_pos hg
  have hmem : totalTiles g - 1 ∈ t := h.mem_iff.2 ⟨by omega, by omega⟩
  obtain ⟨n, hn, hlt, hget⟩ := indexOf_of_mem hmem
  have hlen := h.length hg
  rw [hn, getAt_natCast]
  exact ⟨by omega, by omega, hget⟩

theorem IsBoard.indexOf_eq {g : Int} {t : List Int} (h : IsBoard g t) {i v : Int}
    (hget : getAt t i = some v) : indexOf t v = i := by
  obtain ⟨h0, -⟩ := getAt_eq_some hget
  obtain ⟨n, rfl⟩ := Int.eq_ofNat_of_zero_le h0
  rw [getAt_natCast] at hget
  exact indexOf_of_getElem? h.nodup hget

/-- The swap of the empty cell with one of its neighbours, the primitive shared by
`shuffleBoard` and `handleTileClick`. -/
theorem swap_step {g : Int} {t : List Int} {c : Int} (hg : 2 ≤ g) (h : IsBoard g t)
    (hc : c ∈ getNeighbors g (indexOf t (totalTiles g - 1))) :
    ∃ t', swapCells t (indexOf t (totalTiles g - 1)) c = some t' ∧ IsBoard g t' ∧
      t'.length = t.length ∧
      indexOf t' (totalTiles g - 1) = c ∧
      getAt t' (indexOf t (totalTiles g - 1)) = getAt t c ∧
      getAt t' c = some (totalTiles g - 1) ∧
      (∀ k, k ≠ indexOf t (totalTiles g - 1) → k ≠ c → getAt t' k = getAt t k) ∧
      swapCells t' (indexOf t (totalTiles g - 1)) c = some t := by
  obtain ⟨he0, heN, hget⟩ := h.emptyCell hg
  obtain ⟨hc0, hcN, hne⟩ := getNeighbors_range hg he0 heN hc
  have hlen := h.length hg
  have hcN' : c < totalTiles g := hcN
  obtain ⟨t', hsw, hl, hperm, hge, hgc, hframe, hundo⟩ :=
    swapCells_spec (t := t) he0 (by omega) hc0 (by omega) (Ne.symm hne)
  have hb' : IsBoard g t' := List.Perm.trans hperm h
  refine ⟨t', hsw, hb', hl, ?_, hge, hgc.trans hget, hframe, hundo⟩
  exact hb'.indexOf_eq (hgc.trans hget)

/-! ## The loop of `shuffleBoard` -/

theorem length_le_filter_ne_succ {l : List Int} (hnd : l.Nodup) (p : Int) :
    l.length ≤ (l.filter (fun idx => idx != p)).length + 1 := by
  induction l with
  | nil => simp
  | cons a l ih =>
    have ha : a ∉ l := (List.nodup_cons.1 hnd).1
    have hl := ih (List.nodup_cons.1 hnd).2
    by_cases hap : a = p
    · subst hap
      have hfl : l.filter (fun idx => idx != a) = l := by
        rw [List.filter_eq_self]
        intro x hx
        have : x ≠ a := fun h => ha (h ▸ hx)
        simpa using this
      simp [List.filter_cons, hfl]
    · have : (a != p) = true := by simpa using hap
      simp only [List.filter_cons, this, if_true, List.length_cons]
      omega

theorem validNeighbors_ne_nil {g : Int} {s : ShuffleState} (hg : 2 ≤ g)
    (h0 : 0 ≤ s.emptyIdx) (hN : s.emptyIdx < totalTiles g) : validNeighbors g s ≠ [] := by
  obtain ⟨hnd, h2, -⟩ := getNeighbors_nodup_length hg h0 hN
  have := length_le_filter_ne_succ hnd s.previousIdx
  intro hnil
  unfold validNeighbors at hnil
  rw [hnil] at this
  simp at this
  omega

theorem candidates_eq_validNeighbors {g : Int} {s : ShuffleState}
    (h : validNeighbors g s ≠ []) : candidates g s = validNeighbors g s := by
  unfold candidates
  rw [if_pos (List.length_pos.2 h)]

theorem mem_validNeighbors {g : Int} {s : ShuffleState} {c : Int}
    (h : c ∈ validNeighbors g s) : c ∈ getNeighbors g s.emptyIdx ∧ c ≠ s.previousIdx := by
  unfold validNeighbors at h
  simpa using h

theorem shuffleStart_inv {g : Int} {b : List Int} (hb : IsBoard g b) :
    ShuffleInv g (shuffleStart g b) :=
  ⟨hb, rfl⟩

/-- One iteration of the loop from a state that satisfies the invariant. -/
theorem shuffleIter_spec {g : Int} {s : ShuffleState} (hg : 2 ≤ g) (hs : ShuffleInv g s)
    (draw : Nat) :
    ∃ c t', c ∈ validNeighbors g s ∧
      (candidates g s)[draw % (candidates g s).length]? = some c ∧
      swapCells s.boardState s.emptyIdx c = some t' ∧
      shuffleIter g draw s = some ⟨t', c, s.emptyIdx⟩ ∧
      ShuffleInv g ⟨t', c, s.emptyIdx⟩ ∧
      swapCells t' s.emptyIdx c = some s.boardState := by
  obtain ⟨he0, heN, -⟩ := hs.board.emptyCell hg
  rw [← hs.empty] at he0 heN
  have hne := validNeighbors_ne_nil (s := s) hg he0 heN
  have hcand := candidates_eq_validNeighbors hne
  have hlen : 0 < (candidates g s).length := by
    rw [hcand]
    exact List.length_pos.2 hne
  have hlt : draw % (candidates g s).length < (candidates g s).length := Nat.mod_lt _ hlen
  have hget := List.getElem?_eq_getElem hlt
  have hmem : (candidates g s)[draw % (candidates g s).length] ∈ validNeighbors g s := by
    have hm : ∀ x ∈ candidates g s, x ∈ validNeighbors g s := by
      rw [hcand]
      exact fun _ hx => hx
    exact hm _ (List.getElem_mem hlt)
  have hnb := (mem_validNeighbors hmem).1
  rw [hs.empty] at hnb
  obtain ⟨t', hsw, hb', -, hidx, -, -, -, hundo⟩ := swap_step hg hs.board hnb
  rw [← hs.empty] at hsw hundo
  refine ⟨_, t', hmem, hget, hsw, ?_, ⟨hb', hidx.symm⟩, hundo⟩
  unfold shuffleIter
  rw [hget]
  simp only [hsw]

theorem shuffleAfter_inv {g : Int} {b : List Int} (hg : 2 ≤ g) (hb : IsBoard g b)
    (rand : Nat → Nat) (k : Nat) :
    ∃ s, shuffleAfter g rand b k = some s ∧ ShuffleInv g s := by
  induction k with
  | zero => exact ⟨_, rfl, shuffleStart_inv hb⟩
  | succ k ih =>
    obtain ⟨s, hs, hinv⟩ := ih
    obtain ⟨c, t', -, -, -, hit, hinv', -⟩ := shuffleIter_spec hg hinv (rand k)
    exact ⟨_, by simp [shuffleAfter, hs, hit], hinv'⟩

/-- Two consecutive states of the loop: all that iteration `k` does. -/
theorem shuffleAfter_succ {g : Int} {b : List Int} (hg : 2 ≤ g) (hb : IsBoard g b)
    (rand : Nat → Nat) (k : Nat) :
    ∃ s s', shuffleAfter g rand b k = some s ∧ shuffleAfter g rand b (k + 1) = some s' ∧
      ShuffleInv g s ∧ ShuffleInv g s' ∧ s'.previousIdx = s.emptyIdx ∧
      s'.emptyIdx ∈ validNeighbors g s ∧
      (candidates g s)[rand k % (candidates g s).length]? = some s'.emptyIdx ∧
      swapCells s.boardState s.emptyIdx s'.emptyIdx = some s'.boardState ∧
      swapCells s'.boardState s.emptyIdx s'.emptyIdx = some s.boardState := by
  obtain ⟨s, hs, hinv⟩ := shuffleAfter_inv hg hb rand k
  obtain ⟨c, t', hmem, hget, hsw, hit, hinv', hundo⟩ := shuffleIter_spec hg hinv (rand k)
  exact ⟨s, _, hs, by simp [shuffleAfter, hs, hit], hinv, hinv', rfl, hmem, hget, hsw, hundo⟩

/-- The walk of the empty cell does not step back: two iterations later the empty cell is
somewhere else. -/
theorem shuffleAfter_no_backtrack {g : Int} {b : List Int} (hg : 2 ≤ g) (hb : IsBoard g b)
    (rand : Nat → Nat) (k : Nat) :
    ∃ s0 s1 s2, shuffleAfter g rand b k = some s0 ∧ shuffleAfter g rand b (k + 1) = some s1 ∧
      shuffleAfter g rand b (k + 2) = some s2 ∧ validNeighbors g s1 ≠ [] ∧
      s2.emptyIdx ≠ s0.emptyIdx := by
  obtain ⟨s0, s1, h0, h1, -, -, hprev, -, -, -, -⟩ := shuffleAfter_succ hg hb rand k
  obtain ⟨s1', s2, h1', h2, -, -, -, hmem, -, -, -⟩ := shuffleAfter_succ hg hb rand (k + 1)
  rw [h1] at h1'
  cases h1'
  refine ⟨s0, s1, s2, h0, h1, h2, List.ne_nil_of_mem hmem, ?_⟩
  rw [← hprev]
  exact (mem_validNeighbors hmem).2

theorem solvedState_isBoard (g : Int) : IsBoard g (solvedState g) :=
  List.Perm.refl _

/-! ## `checkWin` and `handleTileClick` -/

theorem everyFrom_iff (k : Int) (l : List Int) :
    everyFrom (fun val index => val == index) k l = true ↔
      ∀ n : Nat, n < l.length → l[n]? = some (k + n) := by
  induction l generalizing k with
  | nil => simp [everyFrom]
  | cons a l ih =>
    simp only [everyFrom, Bool.and_eq_true, beq_iff_eq, ih, List.length_cons]
    constructor
    · rintro ⟨rfl, h⟩ n hn
      cases n with
      | zero => simp
      | succ m =>
        have := h m (by omega)
        simp only [List.getElem?_cons_succ, this]
        congr 1
        push_cast
        ring
    · intro h
      refine ⟨by simpa using h 0 (by omega), fun n hn => ?_⟩
      have := h (n + 1) (by omega)
      simp only [List.getElem?_cons_succ] at this
      rw [this]
      congr 1
      push_cast
      ring

theorem isWin_iff_getElem? (t : List Int) :
    isWin t = true ↔ ∀ n : Nat, n < t.length → t[n]? = some (n : Int) := by
  unfold isWin
  rw [everyFrom_iff]
  simp

theorem solvedState_getElem? (g : Int) (n : Nat) (hn : n < (totalTiles g).toNat) :
    (solvedState g)[n]? = some (n : Int) := by
  simp [solvedState, hn]

theorem isWin_iff_eq_solvedState {g : Int} {t : List Int}
    (hlen : t.length = (totalTiles g).toNat) : isWin t = true ↔ t = solvedState g := by
  rw [isWin_iff_getElem?]
  constructor
  · intro h
    apply List.ext_getElem?
    intro n
    by_cases hn : n < t.length
    · rw [h n hn, solvedState_getElem? g n (by omega)]
    · rw [List.getElem?_eq_none (by omega), List.getElem?_eq_none]
      rw [solvedState_length]
      omega
  · rintro rfl n hn
    exact solvedState_getElem? g n (by rwa [solvedState_length] at hn)

theorem includes_iff {l : List Int} {v : Int} : includes l v = true ↔ v ∈ l := by
  simp [includes]

theorem checkWin_isSolved (s : Game) :
    (checkWin s).isSolved = (s.isSolved || isWin s.tiles) := by
  unfold checkWin
  split_ifs with h <;> simp [h]

theorem handleTileClick_solved (g : Int) {s : Game} (hs : s.isSolved = true) (v : Int) :
    handleTileClick g s v = some s := by
  simp [handleTileClick, hs]

theorem handleTileClick_reject (g : Int) (s : Game) (v : Int)
    (hv : indexOf s.tiles v ∉ getNeighbors g (indexOf s.tiles (totalTiles g - 1))) :
    handleTileClick g s v = some s := by
  unfold handleTileClick
  have : includes (getNeighbors g (indexOf s.tiles (totalTiles g - 1))) (indexOf s.tiles v)
      = false := by
    rw [← Bool.not_eq_true, includes_iff]
    exact hv
  simp only [this]
  simp

theorem getAt_indexOf {t : List Int} {v : Int} (h : 0 ≤ indexOf t v) :
    getAt t (indexOf t v) = some v := by
  by_cases hmem : v ∈ t
  · obtain ⟨n, hn, -, hget⟩ := indexOf_of_mem hmem
    rw [hn, getAt_natCast, hget]
  · rw [indexOf_of_not_mem hmem] at h
    omega

theorem handleTileClick_accept {g : Int} {s : Game} {v : Int} (hg : 2 ≤ g)
    (hb : IsBoard g s.tiles) (hs : s.isSolved = false)
    (hv : indexOf s.tiles v ∈ getNeighbors g (indexOf s.tiles (totalTiles g - 1))) :
    ∃ t', swapCells s.tiles (indexOf s.tiles (totalTiles g - 1)) (indexOf s.tiles v) = some t' ∧
      handleTileClick g s v = some ⟨t', isWin t', s.positionUpdates + 1⟩ ∧
      IsBoard g t' ∧ t'.length = s.tiles.length ∧
      getAt s.tiles (indexOf s.tiles (totalTiles g - 1)) = some (totalTiles g - 1) ∧
      getAt s.tiles (indexOf s.tiles v) = some v ∧
      getAt t' (indexOf s.tiles (totalTiles g - 1)) = some v ∧
      getAt t' (indexOf s.tiles v) = some (totalTiles g - 1) ∧
      (∀ k, k ≠ indexOf s.tiles (totalTiles g - 1) → k ≠ indexOf s.tiles v →
        getAt t' k = getAt s.tiles k) ∧
      indexOf s.tiles v ≠ indexOf s.tiles (totalTiles g - 1) ∧ v ≠ totalTiles g - 1 := by
  obtain ⟨he0, heN, hgete⟩ := hb.emptyCell hg
  obtain ⟨hc0, hcN, hne⟩ := getNeighbors_range hg he0 heN hv
  have hgetc := getAt_indexOf hc0
  obtain ⟨t', hsw, hb', hl, -, hge, hgc, hframe, -⟩ := swap_step hg hb hv
  refine ⟨t', hsw, ?_, hb', hl, hgete, hgetc, hge.trans hgetc, hgc, hframe, hne, ?_⟩
  · unfold handleTileClick
    simp only [hs, includes_iff.2 hv, hsw]
    simp [checkWin, updateTilePositions]
    split_ifs with h <;> simp [h]
  · rintro rfl
    exact hne rfl

theorem handleTileClick_isBoard {g : Int} {s : Game} (hg : 2 ≤ g) (hb : IsBoard g s.tiles)
    (v : Int) : ∃ s', handleTileClick g s v = some s' ∧ IsBoard g s'.tiles := by
  by_cases hs : s.isSolved = true
  · exact ⟨s, handleTileClick_solved g hs v, hb⟩
  · by_cases hv : indexOf s.tiles v ∈ getNeighbors g (indexOf s.tiles (totalTiles g - 1))
    · obtain ⟨t', -, hclick, hb', -⟩ :=
        handleTileClick_accept hg hb (by simpa using hs) hv
      exact ⟨_, hclick, hb'⟩
    · exact ⟨s, handleTileClick_reject g s v hv, hb⟩

/-! ## Reachability and the trace of the shuffle -/

theorem shuffleAfter_legalMove {g : Int} {b : List Int} (hg : 2 ≤ g) (hb : IsBoard g b)
    (rand : Nat → Nat) (k : Nat) :
    ∃ s s', shuffleAfter g rand b k = some s ∧ shuffleAfter g rand b (k + 1) = some s' ∧
      legalMove g s.boardState s'.emptyIdx = some s'.boardState := by
  obtain ⟨s, s', hs, hs', hinv, -, -, hmem, -, hsw, -⟩ := shuffleAfter_succ hg hb rand k
  refine ⟨s, s', hs, hs', ?_⟩
  have hnb := (mem_validNeighbors hmem).1
  rw [hinv.empty] at hnb hsw
  unfold legalMove
  rw [if_pos (includes_iff.2 hnb), hsw]

theorem shuffleAfter_reachable {g : Int} {b : List Int} (hg : 2 ≤ g) (hb : IsBoard g b)
    (rand : Nat → Nat) (k : Nat) :
    ∃ s, shuffleAfter g rand b k = some s ∧ Reachable g b s.boardState := by
  induction k with
  | zero => exact ⟨_, rfl, Reachable.start⟩
  | succ k ih =>
    obtain ⟨s, hs, hreach⟩ := ih
    obtain ⟨s1, s', hs1, hs', hmove⟩ := shuffleAfter_legalMove hg hb rand k
    rw [hs] at hs1
    cases hs1
    exact ⟨s', hs', Reachable.move _ hreach hmove⟩

theorem applySwaps_append (l₁ l₂ : List (Int × Int)) (t : List Int) :
    applySwaps (l₁ ++ l₂) t = (applySwaps l₁ t).bind (applySwaps l₂) := by
  induction l₁ generalizing t with
  | nil => simp [applySwaps]
  | cons p l ih =>
    obtain ⟨i, j⟩ := p
    simp only [List.cons_append, applySwaps]
    cases swapCells t i j with
    | none => simp
    | some t' => simp [ih]

theorem shuffleSwaps_succ {g : Int} {b : List Int} {rand : Nat → Nat} {k : Nat}
    {s s' : ShuffleState} (hs : shuffleAfter g rand b k = some s)
    (hs' : shuffleAfter g rand b (k + 1) = some s') :
    shuffleSwaps g rand b (k + 1) = shuffleSwaps g rand b k ++ [(s.emptyIdx, s'.emptyIdx)] := by
  rw [shuffleSwaps, hs, hs']

/-- The recorded swaps are the swaps of the loop, and undoing them in reverse order gives
back the array the loop started from. -/
theorem shuffleSwaps_spec {g : Int} {b : List Int} (hg : 2 ≤ g) (hb : IsBoard g b)
    (rand : Nat → Nat) (k : Nat) :
    ∃ s, shuffleAfter g rand b k = some s ∧ (shuffleSwaps g rand b k).length = k ∧
      applySwaps (shuffleSwaps g rand b k) b = some s.boardState ∧
      applySwaps (shuffleSwaps g rand b k).reverse s.boardState = some b := by
  induction k with
  | zero => exact ⟨_, rfl, rfl, rfl, rfl⟩
  | succ k ih =>
    obtain ⟨s, hs, hlen, hfwd, hbwd⟩ := ih
    obtain ⟨s1, s', hs1, hs', -, -, -, -, -, hsw, hundo⟩ := shuffleAfter_succ hg hb rand k
    rw [hs] at hs1
    cases hs1
    refine ⟨s', hs', ?_, ?_, ?_⟩
    · rw [shuffleSwaps_succ hs hs', List.length_append, hlen]
      rfl
    · rw [shuffleSwaps_succ hs hs', applySwaps_append, hfwd]
      simp [applySwaps, hsw]
    · rw [shuffleSwaps_succ hs hs', List.reverse_append]
      simp [applySwaps, hundo, hbwd]

theorem shuffleBoard_eq {g : Int} {b : List Int} {rand : Nat → Nat} {s : ShuffleState}
    (hs : shuffleAfter g rand b shuffleMoves = some s) :
    shuffleBoard g rand b = some s.boardState := by
  unfold shuffleBoard
  rw [hs]
  rfl

theorem shuffleBoard_isBoard {g : Int} {b : List Int} (hg : 2 ≤ g) (hb : IsBoard g b)
    (rand : Nat → Nat) : ∃ t, shuffleBoard g rand b = some t ∧ IsBoard g t := by
  obtain ⟨s, hs, hinv⟩ := shuffleAfter_inv hg hb rand shuffleMoves
  exact ⟨_, shuffleBoard_eq hs, hinv.board⟩

theorem initGame_spec {g : Int} (hg : 2 ≤ g) (rand : Nat → Nat) (s : Game) :
    ∃ t, shuffleBoard g rand (solvedState g) = some t ∧ IsBoard g t ∧
      initGame g rand s = some ⟨t, s.isSolved, s.positionUpdates + 1⟩ := by
  obtain ⟨t, ht, hb⟩ := shuffleBoard_isBoard hg (solvedState_isBoard g) rand
  refine ⟨t, ht, hb, ?_⟩
  unfold initGame
  rw [ht]
  rfl

theorem IsBoard.count_eq_one {g : Int} {t : List Int} (h : IsBoard g t) {v : Int}
    (h0 : 0 ≤ v) (hv : v < totalTiles g) : t.count v = 1 :=
  List.count_eq_one_of_mem h.nodup (h.mem_iff.2 ⟨h0, hv⟩)

theorem isBoard_iff_count {g : Int} (hg : 2 ≤ g) (t : List Int) :
    IsBoard g t ↔
      ((t.length : Int) = totalTiles g ∧ ∀ v, 0 ≤ v → v < totalTiles g → t.count v = 1) := by
  constructor
  · intro h
    exact ⟨h.length hg, fun v h0 hv => h.count_eq_one h0 hv⟩
  · rintro ⟨hlen, hcount⟩
    have hsub : solvedState g ⊆ t := by
      intro v hv
      obtain ⟨h0, hN⟩ := mem_solvedState.1 hv
      have := hcount v h0 hN
      exact List.count_pos_iff.1 (by omega)
    have hsp : List.Subperm (solvedState g) t := (solvedState_nodup g).subperm hsub
    have hle : t.length ≤ (solvedState g).length := by
      rw [solvedState_length]
      omega
    exact (hsp.perm_of_length_le hle).symm

theorem runOp_solved {g : Int} (hg : 2 ≤ g) {s : Game} (hs : s.isSolved = true) (op : Op) :
    ∃ s', runOp g op s = some s' ∧ s'.isSolved = true := by
  cases op with
  | initGame rand =>
    obtain ⟨t, -, -, hinit⟩ := initGame_spec hg rand s
    exact ⟨_, hinit, hs⟩
  | handleTileClick v => exact ⟨s, handleTileClick_solved g hs v, hs⟩
  | handleResize => exact ⟨_, rfl, hs⟩
  | updateTilePositions => exact ⟨_, rfl, hs⟩
  | checkWin => exact ⟨_, rfl, by rw [checkWin_isSolved, hs]; rfl⟩

theorem runOps_solved {g : Int} (hg : 2 ≤ g) (ops : List Op) :
    ∀ s : Game, s.isSolved = true → ∃ s', runOps g ops s = some s' ∧ s'.isSolved = true := by
  induction ops with
  | nil => exact fun s hs => ⟨s, rfl, hs⟩
  | cons op rest ih =>
    intro s hs
    obtain ⟨s1, h1, hs1⟩ := runOp_solved hg hs op
    obtain ⟨s2, h2, hs2⟩ := ih s1 hs1
    exact ⟨s2, by simp [runOps, h1, h2], hs2⟩

/-! ## The properties of the design document -/

/-- C1 (permutation invariant): on every grid of size at least two the array `tiles` is a
permutation of `[0, …, N-1]` when `initGame` has built the solved state, after
`shuffleBoard` for all random draws (hence after `initGame`), and after every
`handleTileClick`; being such a permutation is having length `N` and holding every value of
`[0, N)` exactly once. -/
theorem board_is_permutation (g : Int) (hg : 2 ≤ g) :
    IsBoard g (solvedState g) ∧
    (∀ (rand : Nat → Nat) (b : List Int), IsBoard g b →
      ∃ t, shuffleBoard g rand b = some t ∧ IsBoard g t) ∧
    (∀ (rand : Nat → Nat) (s : Game), ∃ s', initGame g rand s = some s' ∧ IsBoard g s'.tiles) ∧
    (∀ (s : Game) (v : Int), IsBoard g s.tiles →
      ∃ s', handleTileClick g s v = some s' ∧ IsBoard g s'.tiles) ∧
    (∀ t : List Int, IsBoard g t ↔
      ((t.length : Int) = totalTiles g ∧ ∀ v, 0 ≤ v → v < totalTiles g → t.count v = 1)) := by
  refine ⟨solvedState_isBoard g, fun rand b hb => shuffleBoard_isBoard hg hb rand, ?_,
    fun s v hb => handleTileClick_isBoard hg hb v, isBoard_iff_count hg⟩
  intro rand s
  obtain ⟨t, -, hb, hinit⟩ := initGame_spec hg rand s
  exact ⟨_, hinit, hb⟩

/-- Witness of C1 on the 3×3 grid of the script. -/
theorem board_is_permutation_witness :
    (2 : Int) ≤ 3 ∧ IsBoard 3 (solvedState 3) ∧
      ∃ s', initGame 3 loopDraws loadState = some s' ∧ IsBoard 3 s'.tiles :=
  ⟨by decide, (board_is_permutation 3 (by decide)).1,
    (board_is_permutation 3 (by decide)).2.2.1 loopDraws loadState⟩

/-- C2 (shuffle solvability): for all random draws the array that `shuffleBoard` makes of
the solved 3×3 board is reachable from the solved board by legal moves; in every iteration
the tracked `emptyIdx` is the cell of the empty tile `N-1` and the swap exchanges it with a
grid-adjacent cell; and the 150 swaps undone in reverse order give `[0, 1, …, 8]` back. -/
theorem shuffle_solvable (rand : Nat → Nat) :
    ∃ t, shuffleBoard 3 rand (solvedState 3) = some t ∧
      Reachable 3 (solvedState 3) t ∧
      (∀ k, ∃ s s', shuffleAfter 3 rand (solvedState 3) k = some s ∧
        shuffleAfter 3 rand (solvedState 3) (k + 1) = some s' ∧
        s.emptyIdx = indexOf s.boardState (totalTiles 3 - 1) ∧
        getAt s.boardState s.emptyIdx = some (totalTiles 3 - 1) ∧
        s'.emptyIdx ∈ getNeighbors 3 s.emptyIdx ∧ Adjacent 3 s.emptyIdx s'.emptyIdx ∧
        swapCells s.boardState s.emptyIdx s'.emptyIdx = some s'.boardState ∧
        legalMove 3 s.boardState s'.emptyIdx = some s'.boardState) ∧
      (shuffleSwaps 3 rand (solvedState 3) shuffleMoves).length = 150 ∧
      applySwaps (shuffleSwaps 3 rand (solvedState 3) shuffleMoves) (solvedState 3) = some t ∧
      applySwaps (shuffleSwaps 3 rand (solvedState 3) shuffleMoves).reverse t
        = some [0, 1, 2, 3, 4, 5, 6, 7, 8] := by
  have hg : (2 : Int) ≤ 3 := by decide
  have hb := solvedState_isBoard 3
  obtain ⟨s, hs, hlen, hfwd, hbwd⟩ := shuffleSwaps_spec hg hb rand shuffleMoves
  obtain ⟨s1, hs1, hreach⟩ := shuffleAfter_reachable hg hb rand shuffleMoves
  rw [hs] at hs1
  cases hs1
  refine ⟨s.boardState, shuffleBoard_eq hs, hreach, ?_, hlen, hfwd, hbwd⟩
  intro k
  obtain ⟨a, a', ha, ha', hinv, -, -, hmem, -, hsw, -⟩ := shuffleAfter_succ hg hb rand k
  obtain ⟨a1, a1', ha1, ha1', hmove⟩ := shuffleAfter_legalMove hg hb rand k
  rw [ha] at ha1
  rw [ha'] at ha1'
  cases ha1
  cases ha1'
  obtain ⟨he0, heN, hget⟩ := hinv.board.emptyCell hg
  rw [← hinv.empty] at he0 heN hget
  have hnb := (mem_validNeighbors hmem).1
  exact ⟨a, a', ha, ha', hinv.empty, hget, hnb,
    ((adjacent_iff_mem_getNeighbors hg he0 heN).1 hnb).2.2, hsw, hmove⟩

/-- C3 (move rejection): when the cell of the clicked tile is not in `getNeighbors` of the
cell of the empty tile, `handleTileClick` changes nothing: no swap, no call of
`updateTilePositions`, no win check (whatever the array and the flag are); on the freshly
built board `[0, …, 8]` a click on value `8`, the empty tile itself, is rejected. -/
theorem click_rejected (g : Int) (s : Game) (v : Int)
    (hv : indexOf s.tiles v ∉ getNeighbors g (indexOf s.tiles (totalTiles g - 1))) :
    handleTileClick g s v = some s ∧
      ∀ n : Nat, handleTileClick 3 ⟨[0, 1, 2, 3, 4, 5, 6, 7, 8], false, n⟩ 8
        = some ⟨[0, 1, 2, 3, 4, 5, 6, 7, 8], false, n⟩ :=
  ⟨handleTileClick_reject g s v hv, fun n => handleTileClick_reject 3 _ 8
    (show indexOf [0, 1, 2, 3, 4, 5, 6, 7, 8] 8 ∉
      getNeighbors 3 (indexOf [0, 1, 2, 3, 4, 5, 6, 7, 8] (totalTiles 3 - 1)) by decide)⟩

/-- Witness of C3: tile `0` clicked on the board `[0, …, 8]`, whose empty cell is `8`. -/
theorem click_rejected_witness :
    indexOf (solvedState 3) 0 ∉ getNeighbors 3 (indexOf (solvedState 3) (totalTiles 3 - 1)) ∧
      handleTileClick 3 ⟨solvedState 3, false, 0⟩ 0 = some ⟨solvedState 3, false, 0⟩ :=
  ⟨by decide, (click_rejected 3 ⟨solvedState 3, false, 0⟩ 0 (by decide)).1⟩

/-- C4 (move acceptance): on a board with `isSolved` false, a click on a tile `v` whose cell
`c` is in `getNeighbors e`, with `e` the cell of the empty tile, is accepted (the tiles are
placed again and the win check runs) and the new array differs from the old one in exactly
two entries: cell `e` held `N-1` and now holds `v`, cell `c` held `v` and now holds `N-1`,
and every other cell is unchanged. -/
theorem click_accepted (g : Int) (s : Game) (v : Int) (hg : 2 ≤ g)
    (hb : IsBoard g s.tiles) (hs : s.isSolved = false)
    (hv : indexOf s.tiles v ∈ getNeighbors g (indexOf s.tiles (totalTiles g - 1))) :
    ∃ s', handleTileClick g s v = some s' ∧
      s'.positionUpdates = s.positionUpdates + 1 ∧ s'.isSolved = isWin s'.tiles ∧
      s'.tiles.length = s.tiles.length ∧
      getAt s.tiles (indexOf s.tiles (totalTiles g - 1)) = some (totalTiles g - 1) ∧
      getAt s.tiles (indexOf s.tiles v) = some v ∧
      getAt s'.tiles (indexOf s.tiles (totalTiles g - 1)) = some v ∧
      getAt s'.tiles (indexOf s.tiles v) = some (totalTiles g - 1) ∧
      (∀ k, k ≠ indexOf s.tiles (totalTiles g - 1) → k ≠ indexOf s.tiles v →
        getAt s'.tiles k = getAt s.tiles k) ∧
      indexOf s.tiles v ≠ indexOf s.tiles (totalTiles g - 1) ∧ v ≠ totalTiles g - 1 := by
  obtain ⟨t', -, hclick, -, hl, hgete, hgetc, hne', hnc', hframe, hne, hvne⟩ :=
    handleTileClick_accept hg hb hs hv
  exact ⟨_, hclick, rfl, rfl, hl, hgete, hgetc, hne', hnc', hframe, hne, hvne⟩

/-- Witness of C4: tile `7` clicked on `[0, 1, 2, 3, 4, 5, 6, 8, 7]`. -/
theorem click_accepted_witness :
    (2 : Int) ≤ 3 ∧ IsBoard 3 [0, 1, 2, 3, 4, 5, 6, 8, 7] ∧
      indexOf [0, 1, 2, 3, 4, 5, 6, 8, 7] 7 ∈
        getNeighbors 3 (indexOf [0, 1, 2, 3, 4, 5, 6, 8, 7] (totalTiles 3 - 1)) ∧
      ∃ s', handleTileClick 3 ⟨[0, 1, 2, 3, 4, 5, 6, 8, 7], false, 0⟩ 7 = some s' ∧
        s'.positionUpdates = 1 ∧ s'.isSolved = isWin s'.tiles :=
  ⟨by decide, by decide, by decide,
    (click_accepted 3 ⟨[0, 1, 2, 3, 4, 5, 6, 8, 7], false, 0⟩ 7 (by decide) (by decide) rfl
      (by decide)).imp fun _ h => ⟨h.1, h.2.1, h.2.2.1⟩⟩

/-- C5 (win test): for a board, an array of length `N`, the value `isWin` computed in
`checkWin` is true exactly when every cell index `i` holds `i`, that is exactly when the
array is `[0, 1, …, N-1]`; for `N = 9` it is true on `[0,1,2,3,4,5,6,7,8]` and false on
`[0,1,2,3,4,5,6,8,7]`. -/
theorem isWin_spec (g : Int) (t : List Int) (hlen : t.length = (totalTiles g).toNat) :
    (isWin t = true ↔ ∀ i : Int, 0 ≤ i → i < totalTiles g → getAt t i = some i) ∧
    (isWin t = true ↔ t = solvedState g) ∧
    solvedState 3 = [0, 1, 2, 3, 4, 5, 6, 7, 8] ∧
    isWin [0, 1, 2, 3, 4, 5, 6, 7, 8] = true ∧ isWin [0, 1, 2, 3, 4, 5, 6, 8, 7] = false := by
  refine ⟨?_, isWin_iff_eq_solvedState hlen, by decide, by decide, by decide⟩
  rw [isWin_iff_getElem?]
  constructor
  · intro h i h0 hN
    obtain ⟨n, rfl⟩ := Int.eq_ofNat_of_zero_le h0
    rw [getAt_natCast]
    exact h n (by omega)
  · intro h n hn
    rw [← getAt_natCast]
    exact h n (by omega) (by omega)

/-- Witness of C5 on the board `[0,1,2,3,4,5,6,8,7]` of the 3×3 grid. -/
theorem isWin_spec_witness :
    [0, 1, 2, 3, 4, 5, 6, 8, 7].length = (totalTiles 3).toNat ∧
      (isWin [0, 1, 2, 3, 4, 5, 6, 8, 7] = true ↔ [0, 1, 2, 3, 4, 5, 6, 8, 7] = solvedState 3) :=
  ⟨by decide, (isWin_spec 3 [0, 1, 2, 3, 4, 5, 6, 8, 7] (by decide)).2.1⟩

/-- C6 (neighbour set): on every grid of size at least two and for every cell `i` of it,
`getNeighbors i` lists, without repetition, exactly the cells `j` of the grid one step up,
down, left or right of `i`; it has between two and four entries, and on the 3×3 grid the
corners have two neighbours, the edges three and the centre four. -/
theorem getNeighbors_spec (g i : Int) (hg : 2 ≤ g) (h0 : 0 ≤ i) (hN : i < totalTiles g) :
    (getNeighbors g i).Nodup ∧
    (∀ j, j ∈ getNeighbors g i ↔ (0 ≤ j ∧ j < totalTiles g ∧ Adjacent g i j)) ∧
    2 ≤ (getNeighbors g i).length ∧ (getNeighbors g i).length ≤ 4 ∧
    (∀ c ∈ [0, 2, 6, 8], (getNeighbors 3 c).length = 2) ∧
    (∀ c ∈ [1, 3, 5, 7], (getNeighbors 3 c).length = 3) ∧
    (getNeighbors 3 4).length = 4 := by
  obtain ⟨hnd, h2, h4⟩ := getNeighbors_nodup_length hg h0 hN
  exact ⟨hnd, fun j => adjacent_iff_mem_getNeighbors hg h0 hN, h2, h4, by decide, by decide,
    by decide⟩

/-- Witness of C6: the centre cell of the 3×3 grid. -/
theorem getNeighbors_spec_witness :
    (2 : Int) ≤ 3 ∧ (0 : Int) ≤ 4 ∧ (4 : Int) < totalTiles 3 ∧
      (getNeighbors 3 4).Nodup ∧
      (∀ j, j ∈ getNeighbors 3 4 ↔ (0 ≤ j ∧ j < totalTiles 3 ∧ Adjacent 3 4 j)) :=
  ⟨by decide, by decide, by decide,
    (getNeighbors_spec 3 4 (by decide) (by decide) (by decide)).1,
    (getNeighbors_spec 3 4 (by decide) (by decide) (by decide)).2.1⟩

/-- C7 (post-win freeze): when `isSolved` is true, `handleTileClick` is a no-op for every
tile value (array, flag and DOM counter unchanged), `checkWin` sets the flag when the array
is solved, and no operation of the script, nor any sequence of them, sets the flag back to
false. -/
theorem solved_is_frozen (g : Int) (s : Game) (hg : 2 ≤ g) (hs : s.isSolved = true) :
    (∀ v : Int, handleTileClick g s v = some s) ∧
    (∀ s0 : Game, isWin s0.tiles = true → (checkWin s0).isSolved = true) ∧
    (∀ op : Op, ∃ s', runOp g op s = some s' ∧ s'.isSolved = true) ∧
    (∀ ops : List Op, ∃ s', runOps g ops s = some s' ∧ s'.isSolved = true) := by
  refine ⟨fun v => handleTileClick_solved g hs v, ?_, fun op => runOp_solved hg hs op,
    fun ops => runOps_solved hg ops s hs⟩
  intro s0 h0
  rw [checkWin_isSolved, h0]
  simp

/-- Witness of C7: the solved 3×3 board with the flag set. -/
theorem solved_is_frozen_witness :
    (2 : Int) ≤ 3 ∧
      (∀ v : Int, handleTileClick 3 ⟨solvedState 3, true, 1⟩ v = some ⟨solvedState 3, true, 1⟩) ∧
      ∃ s', runOps 3 [Op.handleTileClick 7, Op.handleResize, Op.initGame loopDraws, Op.checkWin]
        ⟨solvedState 3, true, 1⟩ = some s' ∧ s'.isSolved = true :=
  ⟨by decide, (solved_is_frozen 3 ⟨solvedState 3, true, 1⟩ (by decide) rfl).1,
    (solved_is_frozen 3 ⟨solvedState 3, true, 1⟩ (by decide) rfl).2.2.2 _⟩

/-- C8 (anti-backtrack): in the loop of `shuffleBoard`, for all random draws and every move
`k > 0`, the cell of the empty tile after move `k` differs from its cell before move
`k - 1`, unless `validNeighbors` was empty in iteration `k` (the fallback). -/
theorem shuffle_anti_backtrack (g : Int) (rand : Nat → Nat) (k : Nat) (hg : 2 ≤ g)
    (hk : 0 < k) :
    ∃ s0 s1 s2, shuffleAfter g rand (solvedState g) (k - 1) = some s0 ∧
      shuffleAfter g rand (solvedState g) k = some s1 ∧
      shuffleAfter g rand (solvedState g) (k + 1) = some s2 ∧
      (validNeighbors g s1 ≠ [] → s2.emptyIdx ≠ s0.emptyIdx) := by
  obtain ⟨j, rfl⟩ : ∃ j, k = j + 1 := ⟨k - 1, by omega⟩
  obtain ⟨s0, s1, s2, h0, h1, h2, -, hne⟩ :=
    shuffleAfter_no_backtrack hg (solvedState_isBoard g) rand j
  exact ⟨s0, s1, s2, h0, h1, h2, fun _ => hne⟩

/-- Witness of C8: move `1` of the shuffle of the 3×3 board with all draws `0`. -/
theorem shuffle_anti_backtrack_witness :
    (2 : Int) ≤ 3 ∧ 0 < 1 ∧
      ∃ s0 s1 s2, shuffleAfter 3 (fun _ => 0) (solvedState 3) (1 - 1) = some s0 ∧
        shuffleAfter 3 (fun _ => 0) (solvedState 3) 1 = some s1 ∧
        shuffleAfter 3 (fun _ => 0) (solvedState 3) (1 + 1) = some s2 ∧
        (validNeighbors 3 s1 ≠ [] → s2.emptyIdx ≠ s0.emptyIdx) :=
  ⟨by decide, by decide, shuffle_anti_backtrack 3 (fun _ => 0) 1 (by decide) (by decide)⟩

/-- C9 (fallback unreachable): on every grid of size at least two, in every iteration of
the loop of `shuffleBoard` and for all random draws, `validNeighbors` is not empty, so
`candidates` is `validNeighbors` and not the fallback, the list indexed by the draw is not
empty, and the chosen `randomNeighbor` is a cell index of `[0, N)`. -/
theorem shuffle_fallback_unreachable (g : Int) (rand : Nat → Nat) (k : Nat) (hg : 2 ≤ g) :
    ∃ s, shuffleAfter g rand (solvedState g) k = some s ∧
      validNeighbors g s ≠ [] ∧ candidates g s = validNeighbors g s ∧
      candidates g s ≠ [] ∧
      ∃ randomNeighbor,
        (candidates g s)[rand k % (candidates g s).length]? = some randomNeighbor ∧
        0 ≤ randomNeighbor ∧ randomNeighbor < totalTiles g := by
  obtain ⟨s, s', hs, -, hinv, -, -, hmem, hget, -, -⟩ :=
    shuffleAfter_succ hg (solvedState_isBoard g) rand k
  have hne : validNeighbors g s ≠ [] := List.ne_nil_of_mem hmem
  have hcand := candidates_eq_validNeighbors hne
  obtain ⟨he0, heN, -⟩ := hinv.board.emptyCell hg
  rw [← hinv.empty] at he0 heN
  obtain ⟨hc0, hcN, -⟩ := getNeighbors_range hg he0 heN (mem_validNeighbors hmem).1
  exact ⟨s, hs, hne, hcand, hcand ▸ hne, s'.emptyIdx, hget, hc0, hcN⟩

/-- Witness of C9: iteration `149`, the last one, on the 3×3 grid. -/
theorem shuffle_fallback_unreachable_witness :
    (2 : Int) ≤ 3 ∧
      ∃ s, shuffleAfter 3 loopDraws (solvedState 3) 149 = some s ∧
        validNeighbors 3 s ≠ [] ∧ candidates 3 s = validNeighbors 3 s ∧
        candidates 3 s ≠ [] ∧
        ∃ randomNeighbor,
          (candidates 3 s)[loopDraws 149 % (candidates 3 s).length]? = some randomNeighbor ∧
          0 ≤ randomNeighbor ∧ randomNeighbor < totalTiles 3 :=
  ⟨by decide, shuffle_fallback_unreachable 3 loopDraws 149 (by decide)⟩

/-- C10 (a shuffle can end solved): `initGame` leaves `isSolved` as it was, whatever the
shuffle gives, and there are random draws, with no fallback and no step back anywhere in the
walk, for which the 150 moves of `shuffleBoard` on the solved 3×3 board end on
`[0, 1, …, 8]`: `isWin` holds on the board just shuffled while `isSolved` is false. -/
theorem shuffle_may_end_solved :
    (∀ (rand : Nat → Nat) (s : Game), ∃ t, shuffleBoard 3 rand (solvedState 3) = some t ∧
      initGame 3 rand s = some ⟨t, s.isSolved, s.positionUpdates + 1⟩) ∧
    ∃ rand : Nat → Nat,
      shuffleBoard 3 rand (solvedState 3) = some [0, 1, 2, 3, 4, 5, 6, 7, 8] ∧
      isWin [0, 1, 2, 3, 4, 5, 6, 7, 8] = true ∧
      initGame 3 rand loadState = some ⟨[0, 1, 2, 3, 4, 5, 6, 7, 8], false, 1⟩ ∧
      ∀ k, ∃ s0 s1 s2, shuffleAfter 3 rand (solvedState 3) k = some s0 ∧
        shuffleAfter 3 rand (solvedState 3) (k + 1) = some s1 ∧
        shuffleAfter 3 rand (solvedState 3) (k + 2) = some s2 ∧
        validNeighbors 3 s1 ≠ [] ∧ s2.emptyIdx ≠ s0.emptyIdx := by
  refine ⟨fun rand s => ?_, loopDraws, ?_, by decide, ?_, fun k => ?_⟩
  · obtain ⟨t, ht, -, hinit⟩ := initGame_spec (g := 3) (by decide) rand s
    exact ⟨t, ht, hinit⟩
  · set_option maxRecDepth 100000 in decide
  · set_option maxRecDepth 100000 in decide
  · exact shuffleAfter_no_backtrack (by decide) (solvedState_isBoard 3) loopDraws k

end DearEvelyn
